import Mathlib

/-!
Shallow embedding of the RAG service core of `mi11km/generative-ai-reskilling`
(files `src/services/document_loader.py`, `src/services/rag_service.py`,
`src/services/session_service.py`, `src/config/prompts.py`), together with
theorems settling the spec claims about it.

Modelling conventions:
* Python `str` is Lean `String`; `len(s)` is `s.length` (both count code points).
* Python float scores are modelled as rationals `ℚ`; the claims under
  verification only use ordering, subtraction and clamping of scores.
* Python slicing `s[:n]` (including negative `n`) is `pySlice`.
* `s.strip()` being empty (falsy) is `strippedEmpty s`: a Python string's
  `strip()` result is empty exactly when every character is whitespace.
-/

namespace RagModel

/-- The Python slice `s[:n]` for a nonnegative bound `n`. -/
def pyTake (s : String) (n : Nat) : String :=
  ⟨s.data.take n⟩

/-- The Python slice `s[:n]` for an arbitrary integer bound: a negative bound
counts from the end, clamping at zero. -/
def pySlice (s : String) (n : Int) : String :=
  if 0 ≤ n then pyTake s n.toNat else pyTake s (s.length - (-n).toNat)

/-- The Python expression `s.strip()`: drop whitespace from both ends. -/
def pyStrip (s : String) : String :=
  ⟨((s.data.dropWhile Char.isWhitespace).reverse.dropWhile Char.isWhitespace).reverse⟩

/-- True when `s.strip()` is empty in Python, i.e. every character of `s` is
whitespace; used to model the truthiness test `if chunk_content.strip():`. -/
def strippedEmpty (s : String) : Bool :=
  s.data.all Char.isWhitespace

/-- The Python expression `min(a, b)` on numbers. -/
def pyMin (a b : ℚ) : ℚ :=
  if a ≤ b then a else b

/-- The Python expression `max(a, b)` on numbers. -/
def pyMax (a b : ℚ) : ℚ :=
  if b ≤ a then a else b

/-- The Python expression `'\n'.join(lines)`. -/
def joinLines : List String → String
  | [] => ""
  | [l] => l
  | l :: ls => l ++ "\n" ++ joinLines ls

/-- The Python slice `l[-n:]` for `n > 0`: the last `n` elements (all of them
when fewer than `n` exist). -/
def takeLast (n : Nat) (l : List α) : List α :=
  l.drop (l.length - n)

/-! ### Chunker (`DocumentLoader._create_chunks_from_lines`) -/

/-- Detection of the regex `^## \*\*\d+` resp. `^### \*\*\d+` from
`DocumentLoader._detect_section_headers`: the given literal marker followed by
a digit, anchored at the start of the line. -/
def matchesHeader (marker line : String) : Bool :=
  List.isPrefixOf marker.data line.data &&
    (match line.data.drop marker.data.length with
      | [] => false
      | c :: _ => c.isDigit)

/-- A chunk dict produced by `_create_chunks_from_lines`.  The Python code
stores `content = '\n'.join(lines)`; we keep the line list (`lines`), from
which the joined content is `joinLines lines`, so that line-level coverage
properties can be stated. -/
structure ChunkD where
  lines : List String
  «section» : String
  subsection : String
deriving Repr, DecidableEq

/-- The chunk content string as stored by the Python code. -/
def ChunkD.content (c : ChunkD) : String :=
  joinLines c.lines

/-- Loop state of `_create_chunks_from_lines`: the active section and
subsection, the chunks emitted so far, and the current line buffer. -/
structure ChunkerState where
  currentSection : String
  currentSubsection : String
  chunks : List ChunkD
  currentChunk : List String
deriving Repr, DecidableEq

/-- One iteration of the `for line in lines` loop of
`_create_chunks_from_lines`: update section/subsection from the header
detection, append the line to the buffer, and if the joined buffer now
exceeds `chunk_size`, emit `current_chunk[:-1]` (unless blank) tagged with the
current section/subsection and restart the buffer with just this line. -/
def processLine (chunkSize : Nat) (st : ChunkerState) (line : String) : ChunkerState :=
  let isMain := matchesHeader "## **" line
  let isSub := matchesHeader "### **" line
  let sec := if isMain then pyStrip line else st.currentSection
  let sub := if isMain then "" else if isSub then pyStrip line else st.currentSubsection
  let buf := st.currentChunk ++ [line]
  if chunkSize < (joinLines buf).length then
    let content := joinLines buf.dropLast
    let chunks' :=
      if strippedEmpty content then st.chunks
      else st.chunks ++ [⟨buf.dropLast, sec, sub⟩]
    ⟨sec, sub, chunks', [line]⟩
  else
    ⟨sec, sub, st.chunks, buf⟩

/-- `DocumentLoader._create_chunks_from_lines`: fold the loop body over the
lines, then flush the remaining buffer as a final chunk if non-blank. -/
def createChunksFromLines (chunkSize : Nat) (lines : List String) : List ChunkD :=
  let st := lines.foldl (processLine chunkSize) ⟨"", "", [], []⟩
  if st.currentChunk ≠ [] then
    if strippedEmpty (joinLines st.currentChunk) then st.chunks
    else st.chunks ++ [⟨st.currentChunk, st.currentSection, st.currentSubsection⟩]
  else st.chunks

/-! ### Retrieval engine (`RAGService.search`) -/

/-- A document chunk as seen by retrieval: page content plus the section and
subsection metadata attached by the loader. -/
structure Doc where
  pageContent : String
  «section» : String
  subsection : String
deriving Repr, DecidableEq

/-- `RAGService.search`: filter the provider's `(document, score)` pairs,
keeping those with `score >= similarity_threshold`; order is preserved. -/
def search (similarityThreshold : ℚ) (providerResults : List (Doc × ℚ)) :
    List (Doc × ℚ) :=
  providerResults.filter (fun r => similarityThreshold ≤ r.2)

/-! ### Prompt templates (`src/config/prompts.py`) and context assembly -/

/-- `PromptTemplates.no_results_message`. -/
def noResultsMessage : String :=
  "申し訳ございません。お尋ねの内容に関する情報が仕様書内で見つかりませんでした。"

/-- Rendering of one document through
`context_section_format = "【{section}】\n{content}"`. -/
def renderDoc (d : Doc) : String :=
  "【" ++ d.«section» ++ "】\n" ++ d.pageContent

/-- The context built in `generate_answer` and `generate_answer_with_history`:
the rendered documents joined with a blank-line separator
(`"\n\n".join(...)`). -/
def assembleContext (docs : List Doc) : String :=
  String.intercalate "\n\n" (docs.map renderDoc)

/-- Truncation in `generate_answer`:
`if len(context) > max: context = context[:max] + "..."`. -/
def truncateContext (maxLen : Nat) (context : String) : String :=
  if maxLen < context.length then pyTake context maxLen ++ "..." else context

/-- Truncation in `generate_answer_with_history`, whose budget
`max_context_length - len(history_text)` is a possibly negative integer. -/
def truncateContextInt (budget : Int) (context : String) : String :=
  if budget < (context.length : Int) then pySlice context budget ++ "..."
  else context

/-- The history-aware context bound of `generate_answer_with_history`:
truncate with the reduced budget `max_context_length - len(history_text)`. -/
def contextWithHistory (maxLen : Nat) (historyText context : String) : String :=
  truncateContextInt ((maxLen : Int) - (historyText.length : Int)) context

/-- Rendering of one history entry `(role, content)` in
`generate_answer_with_history`: the f-string
`f"{msg['role'].upper()}: {msg['content']}"`. -/
def fmtEntry (e : String × String) : String :=
  e.1.toUpper ++ ": " ++ e.2

/-- The `history_text` of `generate_answer_with_history`: the last ten
entries (`conversation_history[-10:]`), each formatted by `fmtEntry`, joined
by newlines. -/
def historyText (h : List (String × String)) : String :=
  String.intercalate "\n" ((takeLast 10 h).map fmtEntry)

/-- The `system_prompt` of `PromptTemplates`. -/
def systemPrompt : String :=
  "あなたはゲーム「スゲリス・サーガ」の仕様書に詳しいアシスタントです。\n与えられたコンテキスト情報を基に、ユーザーの質問に正確かつ簡潔に回答してください。\n\n以下の点に注意してください：\n1. コンテキストに含まれる情報のみを使用して回答すること\n2. 推測や憶測は避け、確実な情報のみを提供すること\n3. コンテキストに情報がない場合は、その旨を明確に伝えること\n4. 日本語で自然な文章で回答すること"

/-- The f-string `system_prompt_with_history` of
`generate_answer_with_history`: the system prompt followed by the rendered
history block and the consistency instructions. -/
def systemPromptWithHistory (h : List (String × String)) : String :=
  systemPrompt ++ "\n\n以下は今までの会話履歴です：\n" ++ historyText h ++
    "\n\n上記の会話履歴を考慮して、一貫性のある回答を提供してください。前回の質問や回答と関連がある場合は、それを踏まえて回答してください。"

/-! ### Session store (`src/services/session_service.py`)

The relational store is modelled as an in-memory keyed store: a list of
existing session ids, an append-only list of `(session_id, message)` pairs in
insertion order, a fresh-id counter for `create_session`, and a clock that
strictly increases on every append, standing for `created_at` timestamps. -/

/-- Metadata persisted with an assistant message: the serialized source list
and the (raw) confidence value. -/
structure SourceDocument where
  content : String
  «section» : String
  score : ℚ
deriving Repr, DecidableEq

/-- Metadata attached to a persisted assistant `Message`. -/
structure MsgMeta where
  sources : List SourceDocument
  confidence : ℚ
deriving Repr, DecidableEq

/-- A persisted message row. -/
structure Message where
  role : String
  content : String
  createdAt : Nat
  metadata : Option MsgMeta
deriving Repr, DecidableEq

/-- The conversation store state. -/
structure DB where
  sessions : List Nat
  messages : List (Nat × Message)
  nextSessionId : Nat
  clock : Nat
deriving Repr, DecidableEq

/-- `SessionService.create_session`: insert a fresh session row and return its
id (the auto-generated title is irrelevant to the claims and not modelled). -/
def createSession (db : DB) : Nat × DB :=
  (db.nextSessionId,
    { db with sessions := db.sessions ++ [db.nextSessionId],
              nextSessionId := db.nextSessionId + 1 })

/-- `SessionService.add_message`: check that the session exists (returning
`none` otherwise, as the Python method returns `None`), then append the
message with the current clock as its `created_at`. -/
def addMessage (db : DB) (sessionId : Nat) (role content : String)
    (metadata : Option MsgMeta) : Option DB :=
  if sessionId ∈ db.sessions then
    some { db with
            messages := db.messages ++ [(sessionId, ⟨role, content, db.clock, metadata⟩)],
            clock := db.clock + 1 }
  else none

/-- The rows of one session from a message table, in insertion order. -/
def msgsFor (msgs : List (Nat × Message)) (sessionId : Nat) : List Message :=
  (msgs.filter (fun p => p.1 = sessionId)).map Prod.snd

/-- The messages of one session, in insertion order (which, by construction of
`addMessage`, is `created_at` ascending). -/
def messagesOf (db : DB) (sessionId : Nat) : List Message :=
  msgsFor db.messages sessionId

/-- Insertion step of the `created_at`-descending ordering used by
`get_conversation_history` (`order_by(desc(Message.created_at))`). -/
def insertDesc (m : Message) : List Message → List Message
  | [] => [m]
  | x :: xs => if x.createdAt ≤ m.createdAt then m :: x :: xs else x :: insertDesc m xs

/-- Sorting by `created_at` descending. -/
def sortByCreatedAtDesc : List Message → List Message
  | [] => []
  | x :: xs => insertDesc x (sortByCreatedAtDesc xs)

/-- `SessionService.get_conversation_history`: fetch the session's messages
ordered by `created_at` descending, apply the limit when it is truthy
(nonzero), reverse to chronological order, and keep `{role, content}`. -/
def getConversationHistory (db : DB) (sessionId : Nat) (limit : Nat) :
    List (String × String) :=
  let descOrdered := sortByCreatedAtDesc (messagesOf db sessionId)
  let limited := if limit ≠ 0 then descOrdered.take limit else descOrdered
  limited.reverse.map (fun m => (m.role, m.content))

/-! ### Chat orchestration (`RAGService.chat`) -/

/-- The structured response returned by `chat`. -/
structure ChatResponse where
  answer : String
  sources : List SourceDocument
  confidence : ℚ
  sessionId : Nat
deriving Repr, DecidableEq

/-- The observable outcome of one chat turn: the returned response, the final
store state, whether the text-completion provider was invoked (and, when it
was, whether the history-aware path was taken), the conversation history that
was used for generation, and the metadata persisted with the assistant
message. -/
structure ChatOutcome where
  response : ChatResponse
  db : DB
  llmInvoked : Bool
  usedHistoryPath : Bool
  historyUsed : List (String × String)
  assistantMeta : MsgMeta
deriving Repr, DecidableEq

/-- Source formatting in `chat`: content truncated to 300 characters with a
trailing ellipsis when longer, section passed through, score in metadata. -/
def mkSource (r : Doc × ℚ) : SourceDocument :=
  ⟨if 300 < r.1.pageContent.length then pyTake r.1.pageContent 300 ++ "..."
    else r.1.pageContent,
   r.1.«section», r.2⟩

/-- The part of `RAGService.chat` after the user message has been persisted:
retrieval, the no-results branch or answer generation (the opaque
text-completion provider's output is the parameter `llmAnswer`), confidence
scoring, persistence of the assistant message, and the final response with
the clamped confidence. -/
def chatCore (threshold : ℚ) (db : DB) (sessionId : Nat)
    (history : List (String × String)) (providerResults : List (Doc × ℚ))
    (llmAnswer : String) : ChatOutcome :=
  let searchResults := search threshold providerResults
  let answer := if searchResults.isEmpty then noResultsMessage else llmAnswer
  let sources := if searchResults.isEmpty then [] else searchResults.map mkSource
  let confidence : ℚ :=
    if searchResults.isEmpty then 0
    else match searchResults with
      | [] => 0
      | r :: _ => 1 - r.2
  let invoked := !searchResults.isEmpty
  let usedHistory := !searchResults.isEmpty && !history.isEmpty
  let assistantMeta : MsgMeta := ⟨sources, confidence⟩
  let dbF := (addMessage db sessionId "assistant" answer (some assistantMeta)).getD db
  { response := ⟨answer, sources, pyMin (pyMax confidence 0) 1, sessionId⟩,
    db := dbF,
    llmInvoked := invoked,
    usedHistoryPath := usedHistory,
    historyUsed := history,
    assistantMeta := assistantMeta }

/-- `RAGService.chat`: resolve or create the session, fetch the conversation
history before appending the current user message, persist the user message
(recovering with a brand-new session and empty history when the supplied
session id does not exist), then run the rest of the turn (`chatCore`). -/
def chat (threshold : ℚ) (db0 : DB) (question : String)
    (providerResults : List (Doc × ℚ)) (llmAnswer : String)
    (sessionId? : Option Nat) : ChatOutcome :=
  let resolved := match sessionId? with
    | none => createSession db0
    | some sid => (sid, db0)
  let sid0 := resolved.1
  let db1 := resolved.2
  let conversationHistory := getConversationHistory db1 sid0 20
  match addMessage db1 sid0 "user" question none with
  | some db2 => chatCore threshold db2 sid0 conversationHistory providerResults llmAnswer
  | none =>
      let fresh := createSession db1
      let db2 := (addMessage fresh.2 fresh.1 "user" question none).getD fresh.2
      chatCore threshold db2 fresh.1 [] providerResults llmAnswer

/-! ## Helper definitions and lemmas -/

/-- The non-blank lines of a line list, in order. -/
def nonBlankLines (l : List String) : List String :=
  l.filter (fun s => !strippedEmpty s)

theorem nonBlankLines_append (a b : List String) :
    nonBlankLines (a ++ b) = nonBlankLines a ++ nonBlankLines b :=
  List.filter_append _ _

theorem strippedEmpty_joinLines (ls : List String) :
    strippedEmpty (joinLines ls) = ls.all strippedEmpty := by
  induction ls with
  | nil => rfl
  | cons l ls ih =>
    cases ls with
    | nil => simp [joinLines, strippedEmpty]
    | cons x xs =>
      show strippedEmpty (l ++ "\n" ++ joinLines (x :: xs)) = _
      have hsplit : strippedEmpty (l ++ "\n" ++ joinLines (x :: xs))
          = (strippedEmpty l && strippedEmpty (joinLines (x :: xs))) := by
        simp [strippedEmpty, String.data_append, List.all_append]
      rw [hsplit, ih]
      simp [List.all_cons]

theorem nonBlankLines_eq_nil (ls : List String)
    (h : ls.all strippedEmpty = true) : nonBlankLines ls = [] := by
  refine List.filter_eq_nil_iff.mpr ?_
  intro a ha
  have := List.all_eq_true.mp h a ha
  simp [this]

theorem processLine_nonblank (cs : Nat) (st : ChunkerState) (l : String) :
    nonBlankLines ((((processLine cs st l).chunks.map ChunkD.lines).flatten)
        ++ (processLine cs st l).currentChunk)
      = nonBlankLines ((((st.chunks.map ChunkD.lines).flatten) ++ st.currentChunk) ++ [l]) := by
  by_cases hov : cs < (joinLines (st.currentChunk ++ [l])).length
  · by_cases hbl : strippedEmpty (joinLines st.currentChunk) = true
    · have hblank : (st.currentChunk.all strippedEmpty) = true := by
        rwa [strippedEmpty_joinLines] at hbl
      simp only [processLine, List.dropLast_concat, hov, hbl, if_true, ite_true]
      simp [nonBlankLines_append, nonBlankLines_eq_nil st.currentChunk hblank]
    · simp only [processLine, List.dropLast_concat, hov, hbl, if_true, ite_true,
        if_false, ite_false]
      simp [nonBlankLines_append, List.append_assoc, ChunkD.lines]
  · simp only [processLine, hov, if_false, ite_false]
    simp [nonBlankLines_append, List.append_assoc]

theorem foldl_nonblank (cs : Nat) (ls : List String) : ∀ st : ChunkerState,
    nonBlankLines ((((ls.foldl (processLine cs) st).chunks.map ChunkD.lines).flatten)
        ++ (ls.foldl (processLine cs) st).currentChunk)
      = nonBlankLines ((((st.chunks.map ChunkD.lines).flatten) ++ st.currentChunk) ++ ls) := by
  induction ls with
  | nil => intro st; simp
  | cons l ls ih =>
    intro st
    rw [List.foldl_cons, ih (processLine cs st l)]
    rw [nonBlankLines_append, processLine_nonblank, ← nonBlankLines_append]
    simp [List.append_assoc]

theorem clamp_nonneg (c : ℚ) : 0 ≤ pyMin (pyMax c 0) 1 := by
  unfold pyMin pyMax
  split_ifs <;> linarith

theorem clamp_le_one (c : ℚ) : pyMin (pyMax c 0) 1 ≤ 1 := by
  unfold pyMin pyMax
  split_ifs <;> linarith

theorem clamp_zero : pyMin (pyMax (0 : ℚ) 0) 1 = 0 := by
  unfold pyMin pyMax
  norm_num

theorem addMessage_mem (db : DB) (sid : Nat) (role content : String)
    (meta : Option MsgMeta) (h : sid ∈ db.sessions) :
    addMessage db sid role content meta =
      some { db with
              messages := db.messages ++ [(sid, ⟨role, content, db.clock, meta⟩)],
              clock := db.clock + 1 } := by
  simp only [addMessage, if_pos h]

theorem addMessage_not_mem (db : DB) (sid : Nat) (role content : String)
    (meta : Option MsgMeta) (h : sid ∉ db.sessions) :
    addMessage db sid role content meta = none := by
  simp only [addMessage, if_neg h]

theorem msgsFor_append (a b : List (Nat × Message)) (sid : Nat) :
    msgsFor (a ++ b) sid = msgsFor a sid ++ msgsFor b sid := by
  simp [msgsFor, List.filter_append]

theorem msgsFor_single_self (sid : Nat) (m : Message) :
    msgsFor [(sid, m)] sid = [m] := by
  simp [msgsFor]

theorem msgsFor_eq_nil (msgs : List (Nat × Message)) (sid : Nat)
    (h : msgsFor msgs sid = []) : ∀ p ∈ msgs, ¬ p.1 = sid := by
  unfold msgsFor at h
  have hf := List.map_eq_nil_iff.mp h
  intro p hp
  have := List.filter_eq_nil_iff.mp hf p hp
  simpa using this

/-- Unfolding of `chat` when the supplied session id exists: the history is
fetched from the store before the user message is appended, and the rest of
the turn runs against the store extended with the user message. -/
theorem chat_sid_mem (θ : ℚ) (db0 : DB) (q : String) (prov : List (Doc × ℚ))
    (ans : String) (sid : Nat) (h : sid ∈ db0.sessions) :
    chat θ db0 q prov ans (some sid)
      = chatCore θ
          { db0 with
              messages := db0.messages ++ [(sid, ⟨"user", q, db0.clock, none⟩)],
              clock := db0.clock + 1 }
          sid (getConversationHistory db0 sid 20) prov ans := by
  simp only [chat, addMessage_mem db0 sid "user" q none h]

/-- Unfolding of `chat` when the supplied session id does not exist: the user
message append fails, a brand-new session is created, the fetched history is
discarded, and the append is retried against the new session. -/
theorem chat_sid_not_mem (θ : ℚ) (db0 : DB) (q : String) (prov : List (Doc × ℚ))
    (ans : String) (sid : Nat) (h : sid ∉ db0.sessions) :
    chat θ db0 q prov ans (some sid)
      = chatCore θ
          { sessions := db0.sessions ++ [db0.nextSessionId],
            messages := db0.messages ++ [(db0.nextSessionId, ⟨"user", q, db0.clock, none⟩)],
            nextSessionId := db0.nextSessionId + 1,
            clock := db0.clock + 1 }
          db0.nextSessionId [] prov ans := by
  simp only [chat, addMessage_not_mem db0 sid "user" q none h]
  simp [createSession, Option.getD, addMessage_mem]

/-- Unfolding of `chat` when no session id is supplied: a session is created
first and the turn proceeds against it. -/
theorem chat_no_sid (θ : ℚ) (db0 : DB) (q : String) (prov : List (Doc × ℚ))
    (ans : String) :
    chat θ db0 q prov ans none
      = chatCore θ
          { sessions := db0.sessions ++ [db0.nextSessionId],
            messages := db0.messages ++ [(db0.nextSessionId, ⟨"user", q, db0.clock, none⟩)],
            nextSessionId := db0.nextSessionId + 1,
            clock := db0.clock + 1 }
          db0.nextSessionId (getConversationHistory (createSession db0).2 db0.nextSessionId 20)
          prov ans := by
  simp only [chat]
  simp [createSession, Option.getD, addMessage_mem]

/-- Every chat turn reduces to `chatCore` against some store state in which
the target session exists. -/
theorem chat_eq_chatCore (θ : ℚ) (db0 : DB) (q : String) (prov : List (Doc × ℚ))
    (ans : String) (sid? : Option Nat) :
    ∃ sid db hist, chat θ db0 q prov ans sid? = chatCore θ db sid hist prov ans ∧
      sid ∈ db.sessions := by
  cases sid? with
  | none =>
      refine ⟨db0.nextSessionId, _, _, chat_no_sid θ db0 q prov ans, ?_⟩
      simp
  | some sid =>
      by_cases h : sid ∈ db0.sessions
      · refine ⟨sid, _, _, chat_sid_mem θ db0 q prov ans sid h, ?_⟩
        simpa using h
      · refine ⟨db0.nextSessionId, _, _, chat_sid_not_mem θ db0 q prov ans sid h, ?_⟩
        simp

/-- Behaviour of the post-persistence part of the turn when retrieval comes
back empty: fixed no-results answer, no sources, zero confidence, and the
completion provider is not invoked. -/
theorem chatCore_empty_spec (θ : ℚ) (db : DB) (sid : Nat)
    (hist : List (String × String)) (prov : List (Doc × ℚ)) (ans : String)
    (hs : search θ prov = []) :
    (chatCore θ db sid hist prov ans).response.answer = noResultsMessage ∧
    (chatCore θ db sid hist prov ans).response.sources = [] ∧
    (chatCore θ db sid hist prov ans).response.confidence = 0 ∧
    (chatCore θ db sid hist prov ans).llmInvoked = false ∧
    (chatCore θ db sid hist prov ans).assistantMeta = ⟨[], 0⟩ := by
  simp [chatCore, hs, clamp_zero]

/-- Behaviour of the post-persistence part of the turn when retrieval is
non-empty: the generated answer is returned, the sources are the formatted
search results, the raw confidence `1 - top_score` goes into the assistant
message's metadata while the returned confidence is its clamped value, and
the assistant message is the last row appended to the store. -/
theorem chatCore_cons_spec (θ : ℚ) (db : DB) (sid : Nat)
    (hist : List (String × String)) (prov : List (Doc × ℚ)) (ans : String)
    (d : Doc × ℚ) (rest : List (Doc × ℚ))
    (hs : search θ prov = d :: rest) (hsid : sid ∈ db.sessions) :
    (chatCore θ db sid hist prov ans).response.answer = ans ∧
    (chatCore θ db sid hist prov ans).response.sources = (d :: rest).map mkSource ∧
    (chatCore θ db sid hist prov ans).response.confidence = pyMin (pyMax (1 - d.2) 0) 1 ∧
    (chatCore θ db sid hist prov ans).assistantMeta = ⟨(d :: rest).map mkSource, 1 - d.2⟩ ∧
    (chatCore θ db sid hist prov ans).llmInvoked = true ∧
    (chatCore θ db sid hist prov ans).db.messages.getLast?
      = some (sid, ⟨"assistant", ans, db.clock,
          some ⟨(d :: rest).map mkSource, 1 - d.2⟩⟩) := by
  simp [chatCore, hs, addMessage_mem _ _ _ _ _ hsid, Option.getD]

theorem insertDesc_all_lt (m : Message) (l : List Message)
    (h : ∀ x ∈ l, m.createdAt < x.createdAt) : insertDesc m l = l ++ [m] := by
  induction l with
  | nil => rfl
  | cons x xs ih =>
    have hx : ¬ x.createdAt ≤ m.createdAt := not_le.mpr (h x (List.mem_cons_self x xs))
    simp only [insertDesc, hx, if_false, ite_false]
    rw [ih fun y hy => h y (List.mem_cons_of_mem x hy)]
    simp

/-- On a message list whose `created_at` values are strictly ascending (the
insertion order maintained by `addMessage`), ordering by `created_at`
descending is exactly list reversal. -/
theorem sortDesc_of_ascending (l : List Message)
    (h : l.Pairwise (fun a b => a.createdAt < b.createdAt)) :
    sortByCreatedAtDesc l = l.reverse := by
  induction l with
  | nil => rfl
  | cons x xs ih =>
    rcases List.pairwise_cons.mp h with ⟨hx, hxs⟩
    simp only [sortByCreatedAtDesc]
    rw [ih hxs, insertDesc_all_lt x xs.reverse fun y hy => hx y (List.mem_reverse.mp hy)]
    simp

theorem reverse_take_reverse (l : List Message) (n : Nat) :
    (l.reverse.take n).reverse = l.drop (l.length - n) := by
  have h := @List.reverse_take Message l.reverse n
  simpa using h

/-- On ascending input, `get_conversation_history` with a truthy limit
returns exactly the last `limit` messages in chronological order, projected
to `(role, content)` pairs. -/
theorem getConversationHistory_ascending (db : DB) (sid : Nat) (limit : Nat)
    (hasc : (messagesOf db sid).Pairwise (fun a b => a.createdAt < b.createdAt))
    (hlim : limit ≠ 0) :
    getConversationHistory db sid limit
      = (takeLast limit (messagesOf db sid)).map (fun m => (m.role, m.content)) := by
  simp only [getConversationHistory, hlim, if_true, ite_true, ne_eq,
    not_false_eq_true]
  rw [sortDesc_of_ascending _ hasc, reverse_take_reverse]
  rfl

/-! ## Claims -/

/-- Claim C1: every score returned by `RAGService.search` is at least the
configured `similarity_threshold`; assuming the nearest-neighbor provider
returns its results sorted by score descending (the spec's stated provider
assumption), the filtered sequence is still sorted by score descending; and
when no provider result clears the threshold, `search` returns the empty
list rather than failing. -/
theorem search_threshold_and_order (θ : ℚ) (prov : List (Doc × ℚ))
    (hsorted : prov.Pairwise (fun a b => b.2 ≤ a.2)) :
    (∀ r ∈ search θ prov, θ ≤ r.2) ∧
    (search θ prov).Pairwise (fun a b => b.2 ≤ a.2) ∧
    ((∀ r ∈ prov, r.2 < θ) → search θ prov = []) := by
  refine ⟨?_, List.Pairwise.filter _ hsorted, ?_⟩
  · intro r hr
    have h := (List.mem_filter.mp hr).2
    exact of_decide_eq_true h
  · intro hlt
    refine List.filter_eq_nil_iff.mpr ?_
    intro a ha
    simp only [decide_eq_true_eq]
    exact not_le.mpr (hlt a ha)

/-- Witness for C1 at the spec's Scenario-B-style input: threshold `2`,
provider scores `[3, 2, 1]` sorted descending. -/
theorem search_threshold_and_order_witness :
    (∀ r ∈ search 2 [((⟨"a", "sa", ""⟩ : Doc), (3 : ℚ)), (⟨"b", "sb", ""⟩, 2), (⟨"c", "sc", ""⟩, 1)],
        (2 : ℚ) ≤ r.2) ∧
    (search 2 [((⟨"a", "sa", ""⟩ : Doc), (3 : ℚ)), (⟨"b", "sb", ""⟩, 2), (⟨"c", "sc", ""⟩, 1)]).Pairwise
      (fun a b => b.2 ≤ a.2) ∧
    ((∀ r ∈ [((⟨"a", "sa", ""⟩ : Doc), (3 : ℚ)), (⟨"b", "sb", ""⟩, 2), (⟨"c", "sc", ""⟩, 1)], r.2 < 2) →
      search 2 [((⟨"a", "sa", ""⟩ : Doc), (3 : ℚ)), (⟨"b", "sb", ""⟩, 2), (⟨"c", "sc", ""⟩, 1)] = []) :=
  search_threshold_and_order 2 _ (by decide)

/-- Claim C4: for every input document, the non-blank lines appearing in the
chunks produced by `_create_chunks_from_lines`, concatenated in order, are
exactly the non-blank input lines: no non-blank line is lost and none is
duplicated across chunk boundaries. -/
theorem chunker_covers_nonblank (cs : Nat) (lines : List String) :
    nonBlankLines (((createChunksFromLines cs lines).map ChunkD.lines).flatten)
      = nonBlankLines lines := by
  simp only [createChunksFromLines]
  have h := foldl_nonblank cs lines ⟨"", "", [], []⟩
  simp only [List.map_nil, List.flatten_nil, List.nil_append] at h
  split_ifs with h1 h2
  · have hblank : ((lines.foldl (processLine cs) ⟨"", "", [], []⟩).currentChunk.all strippedEmpty) = true := by
      rwa [strippedEmpty_joinLines] at h2
    rw [← h, nonBlankLines_append,
      nonBlankLines_eq_nil _ hblank, List.append_nil]
  · rw [← h]
    simp [List.flatten_append, nonBlankLines_append, ChunkD.lines]
  · have hnil : (lines.foldl (processLine cs) ⟨"", "", [], []⟩).currentChunk = [] := by
      by_contra hc
      exact h1 hc
    rw [← h, hnil, List.append_nil]

/-- Counterexample to claim C3 as stated: with `chunk_size = 10` and input
lines `["xxxx", "## **1 A"]`, the section active before the second line is
processed is empty (first conjunct), the overflow on appending the second
line closes the chunk `["xxxx"]`, yet that chunk is tagged with the header
line itself, `"## **1 A"` — the section active after the line was processed
— not the empty section active before it. -/
theorem chunkTag_before_line_cex :
    (List.foldl (processLine 10) ⟨"", "", [], []⟩ ["xxxx"]).currentSection = "" ∧
    (createChunksFromLines 10 ["xxxx", "## **1 A"]).map
        (fun c => (c.lines, c.«section»)) =
      [(["xxxx"], "## **1 A"), (["## **1 A"], "## **1 A")] ∧
    ("## **1 A" : String) ≠ "" := by
  refine ⟨by decide, by decide, by decide⟩

/-- Claim C3 as amended: when appending a line makes the buffer's joined
length exceed `chunk_size`, the chunker starts a new buffer containing only
the just-appended line, and closes a chunk consisting of all buffered lines
except the just-appended one (dropped entirely when blank), tagged with the
section and subsection active after that line was processed — so when the
just-appended line is itself a main header, the closed chunk is tagged with
that new header. -/
theorem chunkTag_after_line (cs : Nat) (st : ChunkerState) (line : String)
    (hov : cs < (joinLines (st.currentChunk ++ [line])).length) :
    (processLine cs st line).currentChunk = [line] ∧
    (processLine cs st line).chunks =
      st.chunks ++
        (if strippedEmpty (joinLines st.currentChunk) then []
          else [⟨st.currentChunk, (processLine cs st line).currentSection,
                (processLine cs st line).currentSubsection⟩]) ∧
    (matchesHeader "## **" line = true →
      (processLine cs st line).currentSection = pyStrip line) := by
  refine ⟨?_, ?_, ?_⟩
  · simp only [processLine, List.dropLast_concat, hov, if_true, ite_true]
  · simp only [processLine, List.dropLast_concat, hov, if_true, ite_true]
    split_ifs <;> simp
  · intro hmain
    simp only [processLine, List.dropLast_concat, hov, hmain, if_true, ite_true]

/-- Witness for C3's amended theorem: the concrete overflow state of the
counterexample input, where the just-appended line is a main header. -/
theorem chunkTag_after_line_witness :
    (processLine 10 ⟨"", "", [], ["xxxx"]⟩ "## **1 A").currentChunk = ["## **1 A"] ∧
    (processLine 10 ⟨"", "", [], ["xxxx"]⟩ "## **1 A").chunks =
      [] ++
        (if strippedEmpty (joinLines ["xxxx"]) then []
          else [⟨["xxxx"], (processLine 10 ⟨"", "", [], ["xxxx"]⟩ "## **1 A").currentSection,
                (processLine 10 ⟨"", "", [], ["xxxx"]⟩ "## **1 A").currentSubsection⟩]) ∧
    (matchesHeader "## **" "## **1 A" = true →
      (processLine 10 ⟨"", "", [], ["xxxx"]⟩ "## **1 A").currentSection = pyStrip "## **1 A") :=
  chunkTag_after_line 10 ⟨"", "", [], ["xxxx"]⟩ "## **1 A" (by decide)

/-- Counterexample to claim C2 as stated: a turn whose retrieval is
non-empty (threshold `1`, provider score `1`) still returns confidence
`0.0`, because `1.0 - top_score = 0`; so confidence `0.0` does not hold
exactly when retrieval returned no results. -/
theorem chat_confidence_zero_cex :
    search 1 [((⟨"d", "s", ""⟩ : Doc), (1 : ℚ))] ≠ [] ∧
    (chat 1 ⟨[1], [], 2, 0⟩ "q" [((⟨"d", "s", ""⟩ : Doc), (1 : ℚ))] "ans"
        (some 1)).response.sources ≠ [] ∧
    (chat 1 ⟨[1], [], 2, 0⟩ "q" [((⟨"d", "s", ""⟩ : Doc), (1 : ℚ))] "ans"
        (some 1)).response.confidence = 0 := by
  obtain ⟨sid, db, hist, heq, hm⟩ :=
    chat_eq_chatCore 1 ⟨[1], [], 2, 0⟩ "q" [((⟨"d", "s", ""⟩ : Doc), (1 : ℚ))] "ans" (some 1)
  have hspec := chatCore_cons_spec 1 db sid hist [((⟨"d", "s", ""⟩ : Doc), (1 : ℚ))] "ans"
      ((⟨"d", "s", ""⟩ : Doc), (1 : ℚ)) [] rfl hm
  refine ⟨?_, ?_, ?_⟩
  · exact fun h => List.cons_ne_nil _ _ h
  · rw [heq, hspec.2.1]
    simp
  · rw [heq, hspec.2.2.1]
    rw [sub_self, clamp_zero]

/-- Claim C2 as amended: the confidence in the returned chat response is
always in `[0, 1]`; it equals `0.0` whenever retrieval returned no results;
and when retrieval is non-empty it equals `1.0` minus the top (first) search
result's score, clamped to `[0, 1]` — which can also be `0.0`, whenever the
top score is at least `1.0`. -/
theorem chat_confidence_spec (θ : ℚ) (db0 : DB) (q : String)
    (prov : List (Doc × ℚ)) (ans : String) (sid? : Option Nat) :
    (0 ≤ (chat θ db0 q prov ans sid?).response.confidence ∧
      (chat θ db0 q prov ans sid?).response.confidence ≤ 1) ∧
    (search θ prov = [] → (chat θ db0 q prov ans sid?).response.confidence = 0) ∧
    (∀ d rest, search θ prov = d :: rest →
      (chat θ db0 q prov ans sid?).response.confidence = pyMin (pyMax (1 - d.2) 0) 1) := by
  obtain ⟨sid, db, hist, heq, hmem⟩ := chat_eq_chatCore θ db0 q prov ans sid?
  rw [heq]
  cases hsp : search θ prov with
  | nil =>
      have hspec := chatCore_empty_spec θ db sid hist prov ans hsp
      refine ⟨?_, fun _ => hspec.2.2.1, ?_⟩
      · rw [hspec.2.2.1]
        norm_num
      · intro d rest hcons
        cases hcons
  | cons d rest =>
      have hspec := chatCore_cons_spec θ db sid hist prov ans d rest hsp hmem
      refine ⟨?_, ?_, ?_⟩
      · rw [hspec.2.2.1]
        exact ⟨clamp_nonneg _, clamp_le_one _⟩
      · intro hnil
        cases hnil
      · intro d' rest' hcons
        cases hcons
        exact hspec.2.2.1

/-- Witness for C2's amended theorem: a turn with top score `2` above
threshold `1` returns the clamped confidence `clamp(1 - 2)`. -/
theorem chat_confidence_spec_witness :
    (chat 1 ⟨[1], [], 2, 0⟩ "q" [((⟨"d", "s", ""⟩ : Doc), (2 : ℚ))] "ans"
        (some 1)).response.confidence = pyMin (pyMax (1 - 2) 0) 1 :=
  (chat_confidence_spec 1 ⟨[1], [], 2, 0⟩ "q" [((⟨"d", "s", ""⟩ : Doc), (2 : ℚ))] "ans"
      (some 1)).2.2 ((⟨"d", "s", ""⟩ : Doc), (2 : ℚ)) [] rfl

/-- Claim C8: when retrieval returns no results, the turn answers with the
fixed no-results message, an empty source list and confidence `0.0`, and the
text-completion provider is not invoked at all. -/
theorem chat_no_results (θ : ℚ) (db0 : DB) (q : String) (prov : List (Doc × ℚ))
    (ans : String) (sid? : Option Nat) (hs : search θ prov = []) :
    (chat θ db0 q prov ans sid?).response.answer = noResultsMessage ∧
    (chat θ db0 q prov ans sid?).response.sources = [] ∧
    (chat θ db0 q prov ans sid?).response.confidence = 0 ∧
    (chat θ db0 q prov ans sid?).llmInvoked = false := by
  obtain ⟨sid, db, hist, heq, hmem⟩ := chat_eq_chatCore θ db0 q prov ans sid?
  rw [heq]
  have hspec := chatCore_empty_spec θ db sid hist prov ans hs
  exact ⟨hspec.1, hspec.2.1, hspec.2.2.1, hspec.2.2.2.1⟩

/-- Witness for C8: the provider returns one result below the threshold, so
nothing clears it and the no-results branch is taken. -/
theorem chat_no_results_witness :
    (chat 1 ⟨[1], [], 2, 0⟩ "q" [((⟨"d", "s", ""⟩ : Doc), (0 : ℚ))] "ans"
        (some 1)).response.answer = noResultsMessage ∧
    (chat 1 ⟨[1], [], 2, 0⟩ "q" [((⟨"d", "s", ""⟩ : Doc), (0 : ℚ))] "ans"
        (some 1)).response.sources = [] ∧
    (chat 1 ⟨[1], [], 2, 0⟩ "q" [((⟨"d", "s", ""⟩ : Doc), (0 : ℚ))] "ans"
        (some 1)).response.confidence = 0 ∧
    (chat 1 ⟨[1], [], 2, 0⟩ "q" [((⟨"d", "s", ""⟩ : Doc), (0 : ℚ))] "ans"
        (some 1)).llmInvoked = false :=
  chat_no_results 1 ⟨[1], [], 2, 0⟩ "q" [((⟨"d", "s", ""⟩ : Doc), (0 : ℚ))] "ans"
    (some 1) rfl

/-- Claim C10: for a turn with non-empty retrieval, the confidence embedded
in the persisted assistant message's metadata is the raw `1.0 - top_score`
without clamping, while the returned response carries the clamped value; in
particular, when the top score exceeds `1.0` the persisted value is negative
and differs from the returned confidence. -/
theorem chat_persisted_confidence_raw (θ : ℚ) (db0 : DB) (q : String)
    (prov : List (Doc × ℚ)) (ans : String) (sid? : Option Nat)
    (d : Doc × ℚ) (rest : List (Doc × ℚ)) (hs : search θ prov = d :: rest) :
    (chat θ db0 q prov ans sid?).assistantMeta.confidence = 1 - d.2 ∧
    (chat θ db0 q prov ans sid?).response.confidence = pyMin (pyMax (1 - d.2) 0) 1 ∧
    (∃ m, (chat θ db0 q prov ans sid?).db.messages.getLast?
        = some ((chat θ db0 q prov ans sid?).response.sessionId, m) ∧
      m.role = "assistant" ∧
      m.metadata = some (chat θ db0 q prov ans sid?).assistantMeta) ∧
    (1 < d.2 →
      (chat θ db0 q prov ans sid?).assistantMeta.confidence < 0 ∧
      (chat θ db0 q prov ans sid?).assistantMeta.confidence
        ≠ (chat θ db0 q prov ans sid?).response.confidence) := by
  obtain ⟨sid, db, hist, heq, hmem⟩ := chat_eq_chatCore θ db0 q prov ans sid?
  rw [heq]
  have hspec := chatCore_cons_spec θ db sid hist prov ans d rest hs hmem
  have hraw : (chatCore θ db sid hist prov ans).assistantMeta.confidence = 1 - d.2 := by
    rw [hspec.2.2.2.1]
  refine ⟨hraw, hspec.2.2.1, ?_, ?_⟩
  · refine ⟨⟨"assistant", ans, db.clock, some ⟨(d :: rest).map mkSource, 1 - d.2⟩⟩, ?_, rfl, ?_⟩
    · rw [hspec.2.2.2.2.2]
      rfl
    · rw [hspec.2.2.2.1]
  · intro htop
    have hneg : (1 : ℚ) - d.2 < 0 := by linarith
    refine ⟨hraw ▸ hneg, ?_⟩
    rw [hraw, hspec.2.2.1]
    exact ne_of_lt (lt_of_lt_of_le hneg (clamp_nonneg _))

/-- Witness for C10: a turn with top score `2` persists the negative raw
confidence `1 - 2` while returning its clamped value. -/
theorem chat_persisted_confidence_raw_witness :
    (chat 1 ⟨[1], [], 2, 0⟩ "q" [((⟨"d", "s", ""⟩ : Doc), (2 : ℚ))] "ans"
        (some 1)).assistantMeta.confidence < 0 ∧
    (chat 1 ⟨[1], [], 2, 0⟩ "q" [((⟨"d", "s", ""⟩ : Doc), (2 : ℚ))] "ans"
        (some 1)).assistantMeta.confidence
      ≠ (chat 1 ⟨[1], [], 2, 0⟩ "q" [((⟨"d", "s", ""⟩ : Doc), (2 : ℚ))] "ans"
        (some 1)).response.confidence :=
  (chat_persisted_confidence_raw 1 ⟨[1], [], 2, 0⟩ "q"
      [((⟨"d", "s", ""⟩ : Doc), (2 : ℚ))] "ans" (some 1)
      ((⟨"d", "s", ""⟩ : Doc), (2 : ℚ)) [] rfl).2.2.2 one_lt_two

/-- Claim C6: on an existing session whose stored messages have strictly
ascending `created_at` values, the conversation history used by the chat
turn is computed before the current user message is appended: it is exactly
the last (at most) `20` messages already in the store, in chronological
order, so it never contains the question being answered in this turn; every
entry it holds comes from a message that existed before the turn. -/
theorem chat_history_pre_append (θ : ℚ) (db0 : DB) (q : String)
    (prov : List (Doc × ℚ)) (ans : String) (sid : Nat)
    (hmem : sid ∈ db0.sessions)
    (hasc : (messagesOf db0 sid).Pairwise (fun a b => a.createdAt < b.createdAt)) :
    (chat θ db0 q prov ans (some sid)).historyUsed
      = (takeLast 20 (messagesOf db0 sid)).map (fun m => (m.role, m.content)) ∧
    (chat θ db0 q prov ans (some sid)).historyUsed.length ≤ 20 ∧
    (∀ e ∈ (chat θ db0 q prov ans (some sid)).historyUsed,
      ∃ m ∈ messagesOf db0 sid, e = (m.role, m.content)) := by
  rw [chat_sid_mem θ db0 q prov ans sid hmem]
  have hH : (chatCore θ
      { db0 with
          messages := db0.messages ++ [(sid, ⟨"user", q, db0.clock, none⟩)],
          clock := db0.clock + 1 }
      sid (getConversationHistory db0 sid 20) prov ans).historyUsed
      = getConversationHistory db0 sid 20 := rfl
  rw [hH, getConversationHistory_ascending db0 sid 20 hasc (by decide)]
  refine ⟨rfl, ?_, ?_⟩
  · rw [List.length_map]
    unfold takeLast
    rw [List.length_drop]
    omega
  · intro e he
    rcases List.mem_map.mp he with ⟨m, hm, hme⟩
    exact ⟨m, List.drop_subset _ _ hm, hme.symm⟩

/-- Witness for C6: a session with two prior messages; the history used is
both of them, oldest first, and both come from the pre-turn store. -/
theorem chat_history_pre_append_witness :
    (chat 1 ⟨[1], [(1, ⟨"user", "q1", 0, none⟩), (1, ⟨"assistant", "a1", 1, none⟩)], 2, 2⟩
        "q2" [] "ans" (some 1)).historyUsed
      = (takeLast 20 (messagesOf
          ⟨[1], [(1, ⟨"user", "q1", 0, none⟩), (1, ⟨"assistant", "a1", 1, none⟩)], 2, 2⟩ 1)).map
            (fun m => (m.role, m.content)) ∧
    (chat 1 ⟨[1], [(1, ⟨"user", "q1", 0, none⟩), (1, ⟨"assistant", "a1", 1, none⟩)], 2, 2⟩
        "q2" [] "ans" (some 1)).historyUsed.length ≤ 20 ∧
    (∀ e ∈ (chat 1 ⟨[1], [(1, ⟨"user", "q1", 0, none⟩), (1, ⟨"assistant", "a1", 1, none⟩)], 2, 2⟩
        "q2" [] "ans" (some 1)).historyUsed,
      ∃ m ∈ messagesOf
          ⟨[1], [(1, ⟨"user", "q1", 0, none⟩), (1, ⟨"assistant", "a1", 1, none⟩)], 2, 2⟩ 1,
        e = (m.role, m.content)) :=
  chat_history_pre_append 1
    ⟨[1], [(1, ⟨"user", "q1", 0, none⟩), (1, ⟨"assistant", "a1", 1, none⟩)], 2, 2⟩
    "q2" [] "ans" 1 (by decide) (by decide)

/-- Claim C7: when the user-message append fails because the supplied session
id does not exist, the orchestrator creates a brand-new session, treats the
previously fetched history as empty, retries the append against the new
session, and the turn completes returning the new session id, with the user
message and then the assistant message persisted under it; no error is
surfaced (the modelled turn is total). -/
theorem chat_stale_session_recovery (θ : ℚ) (db0 : DB) (q : String)
    (prov : List (Doc × ℚ)) (ans : String) (sid : Nat)
    (hmem : sid ∉ db0.sessions)
    (hclean : messagesOf db0 db0.nextSessionId = []) :
    (chat θ db0 q prov ans (some sid)).response.sessionId = db0.nextSessionId ∧
    (chat θ db0 q prov ans (some sid)).historyUsed = [] ∧
    (∃ m2, messagesOf (chat θ db0 q prov ans (some sid)).db db0.nextSessionId
        = [⟨"user", q, db0.clock, none⟩, m2] ∧ m2.role = "assistant") := by
  rw [chat_sid_not_mem θ db0 q prov ans sid hmem]
  refine ⟨rfl, rfl, ?_⟩
  have hsid : db0.nextSessionId ∈ db0.sessions ++ [db0.nextSessionId] := by simp
  have hclean' := msgsFor_eq_nil db0.messages db0.nextSessionId hclean
  cases hsp : search θ prov with
  | nil =>
      refine ⟨⟨"assistant", noResultsMessage, db0.clock + 1, some ⟨[], 0⟩⟩, ?_, rfl⟩
      simp [chatCore, hsp, addMessage_mem, hsid, Option.getD, messagesOf, msgsFor]
      intro a b hab
      exact hclean' (a, b) hab
  | cons d rest =>
      refine ⟨⟨"assistant", ans, db0.clock + 1, some ⟨(d :: rest).map mkSource, 1 - d.2⟩⟩, ?_, rfl⟩
      simp [chatCore, hsp, addMessage_mem, hsid, Option.getD, messagesOf, msgsFor]
      intro a b hab
      exact hclean' (a, b) hab

/-- Witness for C7: session id `5` does not exist in a store whose only
session is `1`; the turn completes on the freshly created session `2`. -/
theorem chat_stale_session_recovery_witness :
    (chat 1 ⟨[1], [], 2, 0⟩ "q" [] "ans" (some 5)).response.sessionId = 2 ∧
    (chat 1 ⟨[1], [], 2, 0⟩ "q" [] "ans" (some 5)).historyUsed = [] ∧
    (∃ m2, messagesOf (chat 1 ⟨[1], [], 2, 0⟩ "q" [] "ans" (some 5)).db 2
        = [⟨"user", "q", 0, none⟩, m2] ∧ m2.role = "assistant") :=
  chat_stale_session_recovery 1 ⟨[1], [], 2, 0⟩ "q" [] "ans" 5 (by decide) rfl

theorem pyTake_length (s : String) (n : Nat) :
    (pyTake s n).length = min n s.length := by
  show (s.data.take n).length = min n s.data.length
  exact List.length_take n s.data

theorem pySlice_nonneg (s : String) (n : Int) (h : 0 ≤ n) :
    pySlice s n = pyTake s n.toNat := by
  simp only [pySlice, if_pos h]

/-- Counterexample to claim C5 as stated.  First three conjuncts: a rendering
that itself ends in the ellipsis marker (`"..."` as chunk content) is not
truncated at `max_length = 100`, yet the assembled output ends with `...` —
so ending with `...` does not hold only if the unclamped rendering exceeded
`max_length`.  Last conjunct: when the history text (10 characters) is longer
than `max_length = 5`, the reduced budget is negative and history plus
context comes to 28 characters, far beyond `max_length + 3 = 8` — history
plus context do not stay within the original bound. -/
theorem contextTruncation_cex :
    (¬ 100 < (assembleContext [⟨"...", "S", ""⟩]).length) ∧
    truncateContext 100 (assembleContext [⟨"...", "S", ""⟩])
      = assembleContext [⟨"...", "S", ""⟩] ∧
    (∃ p, truncateContext 100 (assembleContext [⟨"...", "S", ""⟩]) = p ++ "...") ∧
    5 + 3 < "hhhhhhhhhh".length
        + (contextWithHistory 5 "hhhhhhhhhh"
            (assembleContext [⟨"cccccccccccccccccccc", "S", ""⟩])).length := by
  refine ⟨by decide, by decide, ⟨"【S】\n", by decide⟩, by decide⟩

/-- Claim C5 as amended: the context produced by `generate_answer` has length
at most `max_length + 3`; when the unclamped rendering exceeds `max_length`
it is truncated to exactly `max_length` characters plus the `...` marker (so
it ends with `...`; the converse fails only when the rendering itself ends
with `...`), and otherwise it is returned unchanged.  With history present,
`generate_answer_with_history` applies the same rule with the reduced budget
`max_length - len(history_text)`; provided the history text is no longer
than `max_length`, history plus context stay within `max_length + 3`. -/
theorem contextTruncation_spec (docs : List Doc) (maxLen : Nat) (hist : String) :
    (truncateContext maxLen (assembleContext docs)).length ≤ maxLen + 3 ∧
    (maxLen < (assembleContext docs).length →
      truncateContext maxLen (assembleContext docs)
        = pyTake (assembleContext docs) maxLen ++ "..." ∧
      (truncateContext maxLen (assembleContext docs)).length = maxLen + 3) ∧
    (¬ maxLen < (assembleContext docs).length →
      truncateContext maxLen (assembleContext docs) = assembleContext docs) ∧
    (hist.length ≤ maxLen →
      hist.length + (contextWithHistory maxLen hist (assembleContext docs)).length
        ≤ maxLen + 3) := by
  refine ⟨?_, ?_, ?_, ?_⟩
  · by_cases h : maxLen < (assembleContext docs).length
    · rw [truncateContext, if_pos h, String.length_append, pyTake_length]
      have h3 : ("..." : String).length = 3 := rfl
      rw [h3]
      omega
    · rw [truncateContext, if_neg h]
      omega
  · intro h
    refine ⟨by rw [truncateContext, if_pos h], ?_⟩
    rw [truncateContext, if_pos h, String.length_append, pyTake_length]
    have h3 : ("..." : String).length = 3 := rfl
    rw [h3]
    omega
  · intro h
    rw [truncateContext, if_neg h]
  · intro hh
    rw [contextWithHistory]
    by_cases hb : (maxLen : Int) - (hist.length : Int) < ((assembleContext docs).length : Int)
    · rw [truncateContextInt, if_pos hb,
        pySlice_nonneg _ _ (by omega), String.length_append, pyTake_length]
      have h3 : ("..." : String).length = 3 := rfl
      rw [h3]
      omega
    · rw [truncateContextInt, if_neg hb]
      omega

/-- Witness for C5's amended theorem: chunk content `"cc"` renders to a
6-character context; with `max_length = 2` it is truncated to budget plus
marker, and with the one-character history `"h"` the reduced-budget bound
holds. -/
theorem contextTruncation_spec_witness :
    (truncateContext 2 (assembleContext [⟨"cc", "S", ""⟩])).length ≤ 2 + 3 ∧
    truncateContext 2 (assembleContext [⟨"cc", "S", ""⟩])
      = pyTake (assembleContext [⟨"cc", "S", ""⟩]) 2 ++ "..." ∧
    "h".length + (contextWithHistory 2 "h" (assembleContext [⟨"cc", "S", ""⟩])).length
      ≤ 2 + 3 :=
  have h := contextTruncation_spec [⟨"cc", "S", ""⟩] 2 "h"
  ⟨h.1, (h.2.1 (by decide)).1, h.2.2.2 (by decide)⟩

/-- Claim C9: no matter how many entries a fetched conversation history
contains, at most its last 10 entries are rendered into the system
instructions of the generation prompt — the rendered entries are a suffix of
the full rendering, the prompt only depends on the last 10 entries, and each
entry is rendered as an uppercased-role line joined by newlines
(`historyText`). -/
theorem historyRender_last_ten (h : List (String × String)) :
    (takeLast 10 h).length ≤ 10 ∧
    ((takeLast 10 h).map fmtEntry) <:+ (h.map fmtEntry) ∧
    historyText h = String.intercalate "\n" ((takeLast 10 h).map fmtEntry) ∧
    systemPromptWithHistory h = systemPromptWithHistory (takeLast 10 h) := by
  have hidem : takeLast 10 (takeLast 10 h) = takeLast 10 h := by
    show (h.drop (h.length - 10)).drop ((h.drop (h.length - 10)).length - 10)
        = h.drop (h.length - 10)
    have hz : ((h.drop (h.length - 10)).length - 10) = 0 := by
      rw [List.length_drop]
      omega
    rw [hz, List.drop_zero]
  refine ⟨?_, ?_, rfl, ?_⟩
  · show (h.drop (h.length - 10)).length ≤ 10
    rw [List.length_drop]
    omega
  · exact (List.drop_suffix _ _).map _
  · have hht : historyText h = historyText (takeLast 10 h) := by
      unfold historyText
      rw [hidem]
    unfold systemPromptWithHistory
    rw [hht]

end RagModel
